import Mathlib

/-!
Verification of the SDL2 game-template repository: shallow Lean embedding of
the fixed-timestep engine loop (`Engine::Run` / `Engine::Update`), the
text-render LRU cache (`TextRenderer`), the dot-path configuration accessors
(`Config`) and the versioned save envelopes (`SaveManager`), together with
proofs of the specified properties.

Machine `float` arithmetic of the C++ sources is embedded as exact rational
arithmetic (`ℚ`); `size_t` counters are embedded as `Nat` with truncated
subtraction, exact wherever the proved size invariant rules out underflow.
-/

namespace EngineLoop

/-- Calls issued during one `Engine::Update` (part_012): the engine physics
fixed update, the user's fixed update, and the user's variable update. -/
inductive UpdateEvent where
  | physicsFixedUpdate (dt : ℚ)
  | userFixedUpdate (dt : ℚ)
  | userUpdate (dt : ℚ)
deriving DecidableEq, Repr

/-- Game-loop state of `Engine` (Engine.h lines 66-70): the physics
accumulator (initially `0.0f`), the fixed timestep (default `1.0f / 60.0f`),
the cap on fixed steps per frame (default `5`), and whether a game
application is attached (`m_gameApp`). -/
structure EngineState where
  physicsAccumulator : ℚ
  fixedTimestep : ℚ
  maxFixedSteps : Nat
  hasGameApp : Bool
deriving DecidableEq, Repr

/-- The `while (accumulator >= fixedTimestep && fixedSteps < maxFixedSteps)`
loop of `Engine::Update`, with `fuel = maxFixedSteps - fixedSteps` remaining
iterations.  Returns the final accumulator, the number of fixed steps run,
and the trace of update calls issued. -/
def fixedLoop (ts : ℚ) (gameApp : Bool) : Nat → ℚ → ℚ × Nat × List UpdateEvent
  | 0, acc => (acc, 0, [])
  | fuel + 1, acc =>
    if ts ≤ acc then
      let r := fixedLoop ts gameApp fuel (acc - ts)
      (r.1, r.2.1 + 1,
        (UpdateEvent.physicsFixedUpdate ts ::
          (if gameApp then [UpdateEvent.userFixedUpdate ts] else [])) ++ r.2.2)
    else (acc, 0, [])

/-- The calls issued by one iteration of the fixed-step loop. -/
def fixedBody (ts : ℚ) (gameApp : Bool) : List UpdateEvent :=
  UpdateEvent.physicsFixedUpdate ts ::
    (if gameApp then [UpdateEvent.userFixedUpdate ts] else [])

/-- `Engine::Update(deltaTime)` (part_012 lines 367-400), restricted to the
state the claims are about: the input/audio/text-cache `Update` calls that
precede the accumulator logic do not touch it and are omitted.  Adds
`deltaTime` to the accumulator, runs the fixed-step loop, then issues the
single variable-timestep user update.  Returns the new state, the number of
fixed steps run this frame, and the trace of update calls. -/
def engineUpdate (s : EngineState) (deltaTime : ℚ) :
    EngineState × Nat × List UpdateEvent :=
  let r := fixedLoop s.fixedTimestep s.hasGameApp s.maxFixedSteps
    (s.physicsAccumulator + deltaTime)
  ({ s with physicsAccumulator := r.1 }, r.2.1,
    r.2.2 ++ (if s.hasGameApp then [UpdateEvent.userUpdate deltaTime] else []))

/-- The delta-time cap of `Engine::Run` (part_012):
`if (deltaTime > 0.05f) deltaTime = 0.05f;`. -/
def clampDelta (dt : ℚ) : ℚ := if 1 / 20 < dt then 1 / 20 else dt

/-- The per-frame `Update` calls of `Engine::Run`, on a list of raw frame
delta times; records the state and the number of fixed steps after each
frame. -/
def runFrames : EngineState → List ℚ → List (EngineState × Nat)
  | _, [] => []
  | s, dt :: rest =>
    let r := engineUpdate s (clampDelta dt)
    (r.1, r.2.1) :: runFrames r.1 rest

/-- The initial engine state with the defaults of Engine.h. -/
def initEngineState : EngineState :=
  { physicsAccumulator := 0, fixedTimestep := 1 / 60, maxFixedSteps := 5,
    hasGameApp := true }

lemma fixedLoop_spec (ts : ℚ) (gameApp : Bool) (hts : 0 < ts) :
    ∀ (fuel : Nat) (acc : ℚ), 0 ≤ acc →
      fixedLoop ts gameApp fuel acc =
        (acc - (min fuel (Int.toNat ⌊acc / ts⌋) : Nat) * ts,
          min fuel (Int.toNat ⌊acc / ts⌋),
          List.flatten (List.replicate (min fuel (Int.toNat ⌊acc / ts⌋))
            (fixedBody ts gameApp))) := by
  intro fuel
  induction fuel with
  | zero =>
    intro acc hacc
    simp [fixedLoop]
  | succ f ih =>
    intro acc hacc
    by_cases hge : ts ≤ acc
    · have hsubacc : (0 : ℚ) ≤ acc - ts := sub_nonneg.mpr hge
      have hsub : ((acc - ts) / ts : ℚ) = acc / ts - ((1 : ℤ) : ℚ) := by
        push_cast
        field_simp
      have hfl : ⌊(acc - ts) / ts⌋ = ⌊acc / ts⌋ - 1 := by
        rw [hsub, Int.floor_sub_int]
      have hflnn : 0 ≤ ⌊(acc - ts) / ts⌋ :=
        Int.floor_nonneg.mpr (div_nonneg hsubacc hts.le)
      have htn : Int.toNat ⌊acc / ts⌋ = Int.toNat ⌊(acc - ts) / ts⌋ + 1 := by
        omega
      have hmin : min (f + 1) (Int.toNat ⌊acc / ts⌋) =
          min f (Int.toNat ⌊(acc - ts) / ts⌋) + 1 := by
        omega
      simp only [fixedLoop, if_pos hge, ih (acc - ts) hsubacc, hmin]
      refine Prod.ext ?_ (Prod.ext ?_ ?_)
      · push_cast
        ring
      · rfl
      · simp [List.replicate_succ, fixedBody]
    · have hlt : acc < ts := lt_of_not_le hge
      have hfl : ⌊acc / ts⌋ = 0 := by
        rw [Int.floor_eq_zero_iff]
        exact ⟨div_nonneg hacc hts.le, (div_lt_one hts).mpr hlt⟩
      simp [fixedLoop, if_neg hge, hfl]

/-- C1: every `Engine::Update` adds the frame's `deltaTime` to the physics
accumulator; while the accumulator is at least the fixed timestep and fewer
than `maxFixedSteps` fixed steps have run this frame, it performs one physics
fixed update and one user fixed update with the fixed timestep and subtracts
the fixed timestep from the accumulator; afterwards it runs exactly one
variable-timestep user update with the original `deltaTime`, and the
accumulator keeps the remainder
`acc + dt - n * ts` with `n = min maxFixedSteps ⌊(acc + dt) / ts⌋`. -/
theorem c1_engine_update_fixed_timestep (s : EngineState) (dt : ℚ)
    (hts : 0 < s.fixedTimestep) (hacc : 0 ≤ s.physicsAccumulator)
    (hdt : 0 ≤ dt) (happ : s.hasGameApp = true) :
    engineUpdate s dt =
      ({ s with physicsAccumulator := s.physicsAccumulator + dt -
          (min s.maxFixedSteps
            (Int.toNat ⌊(s.physicsAccumulator + dt) / s.fixedTimestep⌋) : Nat)
            * s.fixedTimestep },
        min s.maxFixedSteps
          (Int.toNat ⌊(s.physicsAccumulator + dt) / s.fixedTimestep⌋),
        List.flatten (List.replicate
          (min s.maxFixedSteps
            (Int.toNat ⌊(s.physicsAccumulator + dt) / s.fixedTimestep⌋))
          [UpdateEvent.physicsFixedUpdate s.fixedTimestep,
            UpdateEvent.userFixedUpdate s.fixedTimestep]) ++
          [UpdateEvent.userUpdate dt]) := by
  unfold engineUpdate
  rw [fixedLoop_spec s.fixedTimestep s.hasGameApp hts s.maxFixedSteps
    (s.physicsAccumulator + dt) (add_nonneg hacc hdt)]
  simp [fixedBody, happ]

/-- Witness for C1 at a concrete frame: accumulator 0, timestep 1/60,
delta time 1/30, so exactly two fixed steps run and the remainder is 0. -/
theorem c1_engine_update_fixed_timestep_witness :
    engineUpdate ⟨0, 1 / 60, 5, true⟩ (1 / 30) =
      (⟨0, 1 / 60, 5, true⟩, 2,
        [UpdateEvent.physicsFixedUpdate (1 / 60),
          UpdateEvent.userFixedUpdate (1 / 60),
          UpdateEvent.physicsFixedUpdate (1 / 60),
          UpdateEvent.userFixedUpdate (1 / 60),
          UpdateEvent.userUpdate (1 / 30)]) := by
  rw [c1_engine_update_fixed_timestep ⟨0, 1 / 60, 5, true⟩ (1 / 30)
    (by norm_num) (by norm_num) (by norm_num) rfl]
  have hq : (((0 : ℚ) + 1 / 30) / (1 / 60) : ℚ) = ((2 : ℤ) : ℚ) := by norm_num
  norm_num [hq, Int.floor_intCast, List.replicate, Int.toNat_ofNat]
  constructor
  · show (1 : ℚ) / 30 - ((2 : ℕ) : ℚ) * (1 / 60) = 0
    norm_num
  · rfl

lemma clampDelta_nonneg (dt : ℚ) (h : 0 ≤ dt) : 0 ≤ clampDelta dt := by
  unfold clampDelta
  split <;> norm_num [h]

lemma clampDelta_le (dt : ℚ) : clampDelta dt ≤ 1 / 20 := by
  unfold clampDelta
  split
  · exact le_rfl
  · exact le_of_not_lt (by assumption)

lemma engineUpdate_no_spiral_step (s : EngineState) (dt : ℚ)
    (hts : s.fixedTimestep = 1 / 60) (hmax : s.maxFixedSteps = 5)
    (hacc0 : 0 ≤ s.physicsAccumulator)
    (hacc : s.physicsAccumulator < 1 / 60)
    (hdt0 : 0 ≤ dt) (hdt : dt ≤ 1 / 20) :
    0 ≤ (engineUpdate s dt).1.physicsAccumulator ∧
      (engineUpdate s dt).1.physicsAccumulator < 1 / 60 ∧
      (engineUpdate s dt).2.1 < 5 ∧
      (engineUpdate s dt).1.fixedTimestep = 1 / 60 ∧
      (engineUpdate s dt).1.maxFixedSteps = 5 := by
  obtain ⟨acc, ts, maxS, app⟩ := s
  simp only at hts hmax hacc0 hacc
  subst hts hmax
  have htspos : (0 : ℚ) < 1 / 60 := by norm_num
  have ha : (0 : ℚ) ≤ acc + dt := add_nonneg hacc0 hdt0
  have hfl4 : ⌊(acc + dt) / (1 / 60 : ℚ)⌋ < 4 := by
    apply Int.floor_lt.mpr
    push_cast
    rw [div_lt_iff₀ htspos]
    linarith
  have hflnn : 0 ≤ ⌊(acc + dt) / (1 / 60 : ℚ)⌋ :=
    Int.floor_nonneg.mpr (div_nonneg ha htspos.le)
  have hcast : ((min (5 : ℕ) (Int.toNat ⌊(acc + dt) / (1 / 60 : ℚ)⌋) : ℕ) : ℚ) =
      ((⌊(acc + dt) / (1 / 60 : ℚ)⌋ : ℤ) : ℚ) := by
    have hmin : min (5 : ℕ) (Int.toNat ⌊(acc + dt) / (1 / 60 : ℚ)⌋) =
        Int.toNat ⌊(acc + dt) / (1 / 60 : ℚ)⌋ := by omega
    rw [hmin]
    exact_mod_cast congrArg (fun z : ℤ => (z : ℚ)) (Int.toNat_of_nonneg hflnn)
  simp only [engineUpdate,
    fixedLoop_spec (1 / 60 : ℚ) app htspos 5 (acc + dt) ha]
  refine ⟨?_, ?_, ?_, trivial, trivial⟩
  · rw [hcast]
    exact Int.sub_floor_div_mul_nonneg (acc + dt) htspos
  · rw [hcast]
    exact Int.sub_floor_div_mul_lt (acc + dt) htspos
  · omega

/-- C9: with the `Engine::Run` delta-time cap of `0.05`, the default fixed
timestep `1/60` and `maxFixedSteps = 5`, after every `Engine::Update` call
the physics accumulator is strictly below one fixed timestep and the
fixed-step loop ran fewer than `maxFixedSteps` iterations (it exits because
the accumulator is exhausted, never because the step bound is hit). -/
theorem c9_accumulator_exhausted_every_frame (dts : List ℚ)
    (hdts : ∀ dt ∈ dts, 0 ≤ dt) :
    ∀ p ∈ runFrames initEngineState dts,
      p.1.physicsAccumulator < 1 / 60 ∧ p.2 < 5 := by
  suffices h : ∀ (dts : List ℚ) (s : EngineState),
      (∀ dt ∈ dts, 0 ≤ dt) →
      s.fixedTimestep = 1 / 60 → s.maxFixedSteps = 5 →
      0 ≤ s.physicsAccumulator → s.physicsAccumulator < 1 / 60 →
      ∀ p ∈ runFrames s dts, p.1.physicsAccumulator < 1 / 60 ∧ p.2 < 5 by
    exact h dts initEngineState hdts rfl rfl
      (by norm_num [initEngineState]) (by norm_num [initEngineState])
  intro dts
  induction dts with
  | nil =>
    intro s _ _ _ _ _ p hp
    simp [runFrames] at hp
  | cons dt rest ih =>
    intro s hnn hts hmax hacc0 hacc p hp
    have hstep := engineUpdate_no_spiral_step s (clampDelta dt) hts hmax
      hacc0 hacc (clampDelta_nonneg dt (hnn dt (by simp))) (clampDelta_le dt)
    simp only [runFrames, List.mem_cons] at hp
    rcases hp with hp | hp
    · subst hp
      exact ⟨hstep.2.1, hstep.2.2.1⟩
    · exact ih (engineUpdate s (clampDelta dt)).1
        (fun d hd => hnn d (by simp [hd])) hstep.2.2.2.1 hstep.2.2.2.2
        hstep.1 hstep.2.1 p hp

/-- Witness for C9 on a concrete frame sequence, including a frame whose raw
delta time exceeds the cap. -/
theorem c9_accumulator_exhausted_every_frame_witness :
    (∀ dt ∈ [(1 : ℚ) / 10, 1 / 120, 1 / 60, 3 / 100], 0 ≤ dt) ∧
      ∀ p ∈ runFrames initEngineState [(1 : ℚ) / 10, 1 / 120, 1 / 60, 3 / 100],
        p.1.physicsAccumulator < 1 / 60 ∧ p.2 < 5 :=
  ⟨by norm_num, c9_accumulator_exhausted_every_frame
    [(1 : ℚ) / 10, 1 / 120, 1 / 60, 3 / 100] (by norm_num)⟩

end EngineLoop

namespace TextCache

/-- One cached rendered-text entry (TextRenderer.h part_019): its estimated
memory size in bytes and the frame it was last used; the texture, pixel size
and stored hash do not enter the cache-management logic. -/
structure CachedTextData where
  memorySize : Nat
  lastUsedFrame : Nat
deriving DecidableEq, Repr

/-- The cache-management state of `TextRenderer` (part_019 lines 106-109):
the key-to-entry map (embedded as its entry list; keys are unique), the
tracked byte counter `m_currentCacheSize` and the budget `m_maxCacheSize`
(default 64 MiB). -/
structure TextCacheState where
  textCache : List (String × CachedTextData)
  currentCacheSize : Nat
  maxCacheSize : Nat
deriving DecidableEq, Repr

/-- Total `memorySize` over the stored entries. -/
def cacheSizeSum (l : List (String × CachedTextData)) : Nat :=
  (l.map fun e => e.2.memorySize).sum

/-- `std::min_element` over the cache with the comparator
`a.second.lastUsedFrame < b.second.lastUsedFrame`
(TextRenderer.cpp lines 359-362): the first entry with minimal
`lastUsedFrame`, or `none` on an empty cache. -/
def minByLastUsed : List (String × CachedTextData) →
    Option (String × CachedTextData)
  | [] => none
  | e :: es =>
    some (es.foldl
      (fun best x => if x.2.lastUsedFrame < best.2.lastUsedFrame then x else best)
      e)

/-- `m_textCache.erase(it)`: removes the first occurrence of the entry the
`min_element` iterator designates (with unique keys, the entry itself). -/
def removeFirstEq (e : String × CachedTextData) :
    List (String × CachedTextData) → List (String × CachedTextData)
  | [] => []
  | x :: xs => if x = e then xs else x :: removeFirstEq e xs

/-- One iteration of the eviction loop body (TextRenderer.cpp lines 358-365):
find the oldest entry, subtract its size from the counter, erase it. -/
def evictOne (s : TextCacheState) : TextCacheState :=
  match minByLastUsed s.textCache with
  | none => s
  | some oldest =>
    { s with
      currentCacheSize := s.currentCacheSize - oldest.2.memorySize,
      textCache := removeFirstEq oldest s.textCache }

/-- The `while (m_currentCacheSize > m_maxCacheSize && !m_textCache.empty())`
loop of `TextRenderer::EvictOldCacheEntries`, with an explicit iteration
bound; `evictOldGo_loop_eq` below proves the bound used by
`evictOldCacheEntries` is never exhausted, so this is the while loop. -/
def evictOldGo : Nat → TextCacheState → TextCacheState
  | 0, s => s
  | fuel + 1, s =>
    if s.maxCacheSize < s.currentCacheSize ∧ s.textCache ≠ [] then
      evictOldGo fuel (evictOne s)
    else s

/-- `TextRenderer::EvictOldCacheEntries` (TextRenderer.cpp lines 354-368):
each loop iteration removes one entry, so the cache length bounds the
iteration count.  The initial `if (m_textCache.empty()) return;` is subsumed
by the loop condition. -/
def evictOldCacheEntries (s : TextCacheState) : TextCacheState :=
  evictOldGo s.textCache.length s

lemma foldl_pick_mem (es : List (String × CachedTextData)) :
    ∀ e, es.foldl
      (fun best x => if x.2.lastUsedFrame < best.2.lastUsedFrame then x else best)
      e ∈ e :: es := by
  induction es with
  | nil => intro e; simp
  | cons a as ih =>
    intro e
    simp only [List.foldl_cons]
    by_cases h : a.2.lastUsedFrame < e.2.lastUsedFrame
    · rw [if_pos h]
      have := ih a
      simp only [List.mem_cons] at this ⊢
      tauto
    · rw [if_neg h]
      have := ih e
      simp only [List.mem_cons] at this ⊢
      tauto

lemma foldl_pick_min (es : List (String × CachedTextData)) :
    ∀ e, (es.foldl
        (fun best x => if x.2.lastUsedFrame < best.2.lastUsedFrame then x else best)
        e).2.lastUsedFrame ≤ e.2.lastUsedFrame ∧
      ∀ x ∈ es, (es.foldl
        (fun best x => if x.2.lastUsedFrame < best.2.lastUsedFrame then x else best)
        e).2.lastUsedFrame ≤ x.2.lastUsedFrame := by
  induction es with
  | nil => intro e; simp
  | cons a as ih =>
    intro e
    simp only [List.foldl_cons]
    by_cases h : a.2.lastUsedFrame < e.2.lastUsedFrame
    · rw [if_pos h]
      obtain ⟨h1, h2⟩ := ih a
      refine ⟨le_trans h1 h.le, ?_⟩
      intro x hx
      rcases List.mem_cons.mp hx with hx | hx
      · subst hx; exact h1
      · exact h2 x hx
    · rw [if_neg h]
      obtain ⟨h1, h2⟩ := ih e
      refine ⟨h1, ?_⟩
      intro x hx
      rcases List.mem_cons.mp hx with hx | hx
      · subst hx; exact le_trans h1 (le_of_not_lt h)
      · exact h2 x hx

lemma minByLastUsed_mem {l : List (String × CachedTextData)}
    {e : String × CachedTextData} (h : minByLastUsed l = some e) : e ∈ l := by
  cases l with
  | nil => simp [minByLastUsed] at h
  | cons a as =>
    simp only [minByLastUsed, Option.some.injEq] at h
    rw [← h]
    exact foldl_pick_mem as a

lemma minByLastUsed_min {l : List (String × CachedTextData)}
    {e : String × CachedTextData} (h : minByLastUsed l = some e) :
    ∀ x ∈ l, e.2.lastUsedFrame ≤ x.2.lastUsedFrame := by
  cases l with
  | nil => simp [minByLastUsed] at h
  | cons a as =>
    simp only [minByLastUsed, Option.some.injEq] at h
    intro x hx
    obtain ⟨h1, h2⟩ := foldl_pick_min as a
    rcases List.mem_cons.mp hx with hx | hx
    · subst hx; rw [← h]; exact h1
    · rw [← h]; exact h2 x hx

lemma minByLastUsed_eq_none {l : List (String × CachedTextData)} :
    minByLastUsed l = none ↔ l = [] := by
  cases l <;> simp [minByLastUsed]

lemma removeFirstEq_sublist (e : String × CachedTextData) :
    ∀ l : List (String × CachedTextData), List.Sublist (removeFirstEq e l) l := by
  intro l
  induction l with
  | nil => simp [removeFirstEq]
  | cons x xs ih =>
    simp only [removeFirstEq]
    by_cases h : x = e
    · rw [if_pos h]
      exact List.sublist_cons_self x xs
    · rw [if_neg h]
      exact List.Sublist.cons₂ x ih

lemma removeFirstEq_length {e : String × CachedTextData}
    {l : List (String × CachedTextData)} (h : e ∈ l) :
    (removeFirstEq e l).length + 1 = l.length := by
  induction l with
  | nil => simp at h
  | cons x xs ih =>
    simp only [removeFirstEq]
    by_cases hx : x = e
    · rw [if_pos hx]; simp
    · rw [if_neg hx]
      rcases List.mem_cons.mp h with h1 | h1
      · exact absurd h1.symm hx
      · simp only [List.length_cons]
        rw [← ih h1]

lemma removeFirstEq_sum {e : String × CachedTextData}
    {l : List (String × CachedTextData)} (h : e ∈ l) :
    cacheSizeSum (removeFirstEq e l) + e.2.memorySize = cacheSizeSum l := by
  induction l with
  | nil => simp at h
  | cons x xs ih =>
    simp only [removeFirstEq]
    by_cases hx : x = e
    · rw [if_pos hx, hx]
      simp [cacheSizeSum, Nat.add_comm]
    · rw [if_neg hx]
      rcases List.mem_cons.mp h with h1 | h1
      · exact absurd h1.symm hx
      · simp only [cacheSizeSum, List.map_cons, List.sum_cons] at ih ⊢
        rw [← ih h1]
        omega

/-- The while-loop size invariant: the tracked counter equals the sum of the
stored entries' sizes. -/
def sizeInvariant (s : TextCacheState) : Prop :=
  s.currentCacheSize = cacheSizeSum s.textCache

lemma evictOne_max (s : TextCacheState) :
    (evictOne s).maxCacheSize = s.maxCacheSize := by
  unfold evictOne
  cases minByLastUsed s.textCache <;> rfl

lemma evictOne_sublist (s : TextCacheState) :
    List.Sublist (evictOne s).textCache s.textCache := by
  unfold evictOne
  cases hm : minByLastUsed s.textCache with
  | none => exact List.Sublist.refl _
  | some e => exact removeFirstEq_sublist e s.textCache

lemma evictOne_length (s : TextCacheState) (h : s.textCache ≠ []) :
    (evictOne s).textCache.length + 1 = s.textCache.length := by
  unfold evictOne
  cases hm : minByLastUsed s.textCache with
  | none => exact absurd (minByLastUsed_eq_none.mp hm) h
  | some e =>
    exact removeFirstEq_length (minByLastUsed_mem hm)

lemma evictOne_invariant (s : TextCacheState) (h : sizeInvariant s) :
    sizeInvariant (evictOne s) := by
  unfold evictOne
  cases hm : minByLastUsed s.textCache with
  | none => exact h
  | some e =>
    have hsum := removeFirstEq_sum (minByLastUsed_mem hm)
    unfold sizeInvariant at h ⊢
    simp only
    omega

lemma evictOldGo_spec (fuel : Nat) :
    ∀ s : TextCacheState, s.textCache.length ≤ fuel →
      ((evictOldGo fuel s).currentCacheSize ≤ s.maxCacheSize ∨
        (evictOldGo fuel s).textCache = []) ∧
      (evictOldGo fuel s).maxCacheSize = s.maxCacheSize ∧
      List.Sublist (evictOldGo fuel s).textCache s.textCache ∧
      (sizeInvariant s → sizeInvariant (evictOldGo fuel s)) := by
  induction fuel with
  | zero =>
    intro s hs
    have : s.textCache = [] := List.eq_nil_of_length_eq_zero (by omega)
    exact ⟨Or.inr this, rfl, List.Sublist.refl _, fun h => h⟩
  | succ f ih =>
    intro s hs
    by_cases h : s.maxCacheSize < s.currentCacheSize ∧ s.textCache ≠ []
    · have hlen := evictOne_length s h.2
      have hrec := ih (evictOne s) (by omega)
      have hgo : evictOldGo (f + 1) s = evictOldGo f (evictOne s) := by
        simp only [evictOldGo, if_pos h]
      rw [hgo]
      refine ⟨?_, ?_, ?_, ?_⟩
      · rcases hrec.1 with h1 | h1
        · exact Or.inl (by rw [← evictOne_max s]; exact h1)
        · exact Or.inr h1
      · rw [hrec.2.1, evictOne_max]
      · exact hrec.2.2.1.trans (evictOne_sublist s)
      · intro hinv
        exact hrec.2.2.2 (evictOne_invariant s hinv)
    · have hgo : evictOldGo (f + 1) s = s := by
        simp only [evictOldGo, if_neg h]
      rw [hgo]
      rcases not_and_or.mp h with h1 | h2
      · exact ⟨Or.inl (le_of_not_lt h1), rfl, List.Sublist.refl _, fun h => h⟩
      · exact ⟨Or.inr (not_not.mp h2), rfl, List.Sublist.refl _, fun h => h⟩

lemma evictOldGo_fuel_free (fuel : Nat) :
    ∀ s : TextCacheState, s.textCache.length ≤ fuel →
      evictOldGo fuel s = evictOldCacheEntries s := by
  induction fuel with
  | zero =>
    intro s hs
    have h0 : s.textCache.length = 0 := by omega
    unfold evictOldCacheEntries
    rw [h0]
  | succ f ih =>
    intro s hs
    by_cases h : s.maxCacheSize < s.currentCacheSize ∧ s.textCache ≠ []
    · have hlen := evictOne_length s h.2
      cases hl : s.textCache.length with
      | zero => exact absurd (List.eq_nil_of_length_eq_zero hl) h.2
      | succ k =>
        unfold evictOldCacheEntries
        rw [hl]
        simp only [evictOldGo, if_pos h]
        rw [ih (evictOne s) (by omega)]
        unfold evictOldCacheEntries
        have hk : (evictOne s).textCache.length = k := by omega
        rw [hk]
    · cases hl : s.textCache.length with
      | zero =>
        unfold evictOldCacheEntries
        rw [hl]
        simp [evictOldGo, if_neg h]
      | succ k =>
        unfold evictOldCacheEntries
        rw [hl]
        simp only [evictOldGo, if_neg h]

/-- The genuine while-loop unfolding of `EvictOldCacheEntries`: the iteration
bound in `evictOldCacheEntries` is never exhausted. -/
lemma evictOld_loop_eq (s : TextCacheState) :
    evictOldCacheEntries s =
      if s.maxCacheSize < s.currentCacheSize ∧ s.textCache ≠ [] then
        evictOldCacheEntries (evictOne s)
      else s := by
  by_cases h : s.maxCacheSize < s.currentCacheSize ∧ s.textCache ≠ []
  · rw [if_pos h]
    have hlen := evictOne_length s h.2
    cases hl : s.textCache.length with
    | zero => exact absurd (List.eq_nil_of_length_eq_zero hl) h.2
    | succ k =>
      unfold evictOldCacheEntries
      rw [hl]
      simp only [evictOldGo, if_pos h]
      rw [evictOldGo_fuel_free k (evictOne s) (by omega)]
      rfl
  · rw [if_neg h]
    cases hl : s.textCache.length with
    | zero =>
      unfold evictOldCacheEntries
      rw [hl]
      rfl
    | succ k =>
      unfold evictOldCacheEntries
      rw [hl]
      simp only [evictOldGo, if_neg h]

/-- `TextRenderer::ClearCache` (TextRenderer.cpp lines 116-120). -/
def clearCache (s : TextCacheState) : TextCacheState :=
  { s with textCache := [], currentCacheSize := 0 }

/-- Whether `needle` leads `hay` character by character. -/
def charsLeadWith : List Char → List Char → Bool
  | [], _ => true
  | _ :: _, [] => false
  | a :: as, b :: bs => a == b && charsLeadWith as bs

/-- Whether `needle` occurs in `hay`:
`hay.find(needle) != std::string::npos`. -/
def charsContain (needle : List Char) : List Char → Bool
  | [] => needle.isEmpty
  | b :: bs => charsLeadWith needle (b :: bs) || charsContain needle bs

/-- `it->first.find(fontName) != std::string::npos`
(TextRenderer.cpp line 127). -/
def keyUsesFont (key fontName : String) : Bool :=
  charsContain fontName.toList key.toList

/-- The erase-while-iterating loop of `TextRenderer::ClearCacheForFont`
(TextRenderer.cpp lines 122-135), threading the running counter. -/
def clearCacheForFontAux (fontName : String) :
    List (String × CachedTextData) → Nat →
      List (String × CachedTextData) × Nat
  | [], size => ([], size)
  | e :: es, size =>
    if keyUsesFont e.1 fontName then
      clearCacheForFontAux fontName es (size - e.2.memorySize)
    else
      let r := clearCacheForFontAux fontName es size
      (e :: r.1, r.2)

/-- `TextRenderer::ClearCacheForFont`. -/
def clearCacheForFont (fontName : String) (s : TextCacheState) :
    TextCacheState :=
  let r := clearCacheForFontAux fontName s.textCache s.currentCacheSize
  { s with textCache := r.1, currentCacheSize := r.2 }

/-- `m_textCache.find(key)` (first entry with the key). -/
def lookupEntry (key : String) :
    List (String × CachedTextData) → Option CachedTextData
  | [] => none
  | e :: es => if e.1 = key then some e.2 else lookupEntry key es

/-- `m_textCache.erase(it)` for the iterator found by key. -/
def removeKeyFirst (key : String) :
    List (String × CachedTextData) → List (String × CachedTextData)
  | [] => []
  | e :: es => if e.1 = key then es else e :: removeKeyFirst key es

/-- `TextRenderer::RemoveCacheEntry` (TextRenderer.cpp lines 370-376). -/
def removeCacheEntry (key : String) (s : TextCacheState) : TextCacheState :=
  match lookupEntry key s.textCache with
  | some data =>
    { s with
      currentCacheSize := s.currentCacheSize - data.memorySize,
      textCache := removeKeyFirst key s.textCache }
  | none => s

/-- The cache-miss eviction loop of `TextRenderer::RenderCached`
(TextRenderer.cpp lines 241-244):
`while (m_currentCacheSize + memorySize > m_maxCacheSize && !m_textCache.empty()) EvictOldCacheEntries();`
with an explicit iteration bound; `none` means the loop is still running
after `fuel` iterations. -/
def renderCachedEvictLoop (memorySize : Nat) :
    Nat → TextCacheState → Option TextCacheState
  | 0, _ => none
  | fuel + 1, s =>
    if s.maxCacheSize < s.currentCacheSize + memorySize ∧ s.textCache ≠ [] then
      renderCachedEvictLoop memorySize fuel (evictOldCacheEntries s)
    else some s

/-- The cache insertion of `TextRenderer::RenderCached` (TextRenderer.cpp
lines 246-256), performed after the eviction loop on a key that is not in
the cache: store the entry and add its size to the counter. -/
def renderCachedInsert (cacheKey : String) (memorySize currentFrame : Nat)
    (s : TextCacheState) : TextCacheState :=
  { s with
    textCache := s.textCache ++
      [(cacheKey, { memorySize := memorySize, lastUsedFrame := currentFrame })],
    currentCacheSize := s.currentCacheSize + memorySize }

/-- A cache state on which the `RenderCached` eviction loop spins: one
cached entry of 10 bytes, tracked size 10, budget 10.  A new 4-byte entry
does not fit, yet `EvictOldCacheEntries` removes nothing because the cache
is not strictly over budget. -/
def stuckCacheState : TextCacheState :=
  { textCache := [("t", { memorySize := 10, lastUsedFrame := 0 })],
    currentCacheSize := 10, maxCacheSize := 10 }

/-- C2 (refuted): the insertion-time eviction loop of
`TextRenderer::RenderCached` does NOT always terminate.  On a cache holding
one 10-byte entry with both the tracked size and the budget equal to 10, a
new entry of size 4 keeps the loop condition true while
`EvictOldCacheEntries` (which only evicts while strictly over budget) leaves
the state unchanged, so no iteration bound makes the loop exit. -/
theorem c2_rendercached_eviction_loop_diverges :
    ∀ fuel : Nat, renderCachedEvictLoop 4 fuel stuckCacheState = none := by
  intro fuel
  induction fuel with
  | zero => rfl
  | succ f ih =>
    have hfix : evictOldCacheEntries stuckCacheState = stuckCacheState := by
      rw [evictOld_loop_eq]
      simp [stuckCacheState]
    simp only [renderCachedEvictLoop]
    rw [if_pos (by simp [stuckCacheState]), hfix, ih]

/-- C3: whenever the tracked size exceeds the budget,
`TextRenderer::EvictOldCacheEntries` repeatedly removes exactly one entry
with minimal `lastUsedFrame` until the size is within budget or the cache is
empty; the surviving entries are a sublist of the original ones (unchanged,
in order), and the budget itself is untouched. -/
theorem c3_evict_oldest_until_under_budget (s : TextCacheState) :
    ((evictOldCacheEntries s).currentCacheSize ≤ s.maxCacheSize ∨
      (evictOldCacheEntries s).textCache = []) ∧
    List.Sublist (evictOldCacheEntries s).textCache s.textCache ∧
    (evictOldCacheEntries s).maxCacheSize = s.maxCacheSize ∧
    ∀ t : TextCacheState, t.maxCacheSize < t.currentCacheSize →
      t.textCache ≠ [] →
      ∃ e, e ∈ t.textCache ∧
        (∀ x ∈ t.textCache, e.2.lastUsedFrame ≤ x.2.lastUsedFrame) ∧
        evictOldCacheEntries t =
          evictOldCacheEntries
            { t with
              currentCacheSize := t.currentCacheSize - e.2.memorySize,
              textCache := removeFirstEq e t.textCache } := by
  have hspec := evictOldGo_spec s.textCache.length s le_rfl
  refine ⟨hspec.1, hspec.2.2.1, hspec.2.1, ?_⟩
  intro t ht htne
  cases hm : minByLastUsed t.textCache with
  | none => exact absurd (minByLastUsed_eq_none.mp hm) htne
  | some e =>
    refine ⟨e, minByLastUsed_mem hm, minByLastUsed_min hm, ?_⟩
    conv_lhs => rw [evictOld_loop_eq]
    rw [if_pos ⟨ht, htne⟩]
    unfold evictOne
    rw [hm]

/-- Witness for C3 on a concrete over-budget cache: entries of sizes 4, 5, 6
with last-used frames 7, 2, 9, counter 15, budget 7. -/
theorem c3_evict_oldest_until_under_budget_witness :
    (((evictOldCacheEntries
        ⟨[("a", ⟨4, 7⟩), ("b", ⟨5, 2⟩), ("c", ⟨6, 9⟩)], 15, 7⟩).currentCacheSize ≤ 7 ∨
      (evictOldCacheEntries
        ⟨[("a", ⟨4, 7⟩), ("b", ⟨5, 2⟩), ("c", ⟨6, 9⟩)], 15, 7⟩).textCache = []) ∧
    List.Sublist (evictOldCacheEntries
        ⟨[("a", ⟨4, 7⟩), ("b", ⟨5, 2⟩), ("c", ⟨6, 9⟩)], 15, 7⟩).textCache
      [("a", ⟨4, 7⟩), ("b", ⟨5, 2⟩), ("c", ⟨6, 9⟩)]) ∧
    ∃ e, e ∈ [(("a" : String), (⟨4, 7⟩ : CachedTextData)), ("b", ⟨5, 2⟩), ("c", ⟨6, 9⟩)] ∧
      (∀ x ∈ [(("a" : String), (⟨4, 7⟩ : CachedTextData)), ("b", ⟨5, 2⟩), ("c", ⟨6, 9⟩)],
        e.2.lastUsedFrame ≤ x.2.lastUsedFrame) ∧
      evictOldCacheEntries ⟨[("a", ⟨4, 7⟩), ("b", ⟨5, 2⟩), ("c", ⟨6, 9⟩)], 15, 7⟩ =
        evictOldCacheEntries
          ⟨removeFirstEq e [("a", ⟨4, 7⟩), ("b", ⟨5, 2⟩), ("c", ⟨6, 9⟩)], 15 - e.2.memorySize, 7⟩ := by
  have h := c3_evict_oldest_until_under_budget
    ⟨[("a", ⟨4, 7⟩), ("b", ⟨5, 2⟩), ("c", ⟨6, 9⟩)], 15, 7⟩
  exact ⟨⟨h.1, h.2.1⟩,
    h.2.2.2 ⟨[("a", ⟨4, 7⟩), ("b", ⟨5, 2⟩), ("c", ⟨6, 9⟩)], 15, 7⟩
      (by decide) (by decide)⟩

lemma clearCacheForFontAux_invariant (fontName : String) :
    ∀ (l : List (String × CachedTextData)) (extra : Nat),
      (clearCacheForFontAux fontName l (cacheSizeSum l + extra)).2 =
        cacheSizeSum (clearCacheForFontAux fontName l (cacheSizeSum l + extra)).1
          + extra := by
  intro l
  induction l with
  | nil =>
    intro extra
    simp [clearCacheForFontAux, cacheSizeSum]
  | cons e es ih =>
    intro extra
    simp only [clearCacheForFontAux]
    by_cases h : keyUsesFont e.1 fontName
    · rw [if_pos h]
      have hs : cacheSizeSum (e :: es) + extra - e.2.memorySize =
          cacheSizeSum es + extra := by
        simp only [cacheSizeSum, List.map_cons, List.sum_cons]
        omega
      rw [hs]
      exact ih extra
    · rw [if_neg h]
      have hs : cacheSizeSum (e :: es) + extra =
          cacheSizeSum es + (extra + e.2.memorySize) := by
        simp only [cacheSizeSum, List.map_cons, List.sum_cons]
        omega
      rw [hs]
      have hrec := ih (extra + e.2.memorySize)
      simp only [cacheSizeSum, List.map_cons, List.sum_cons] at hrec ⊢
      omega

lemma removeKeyFirst_sum (key : String) :
    ∀ (l : List (String × CachedTextData)) (d : CachedTextData),
      lookupEntry key l = some d →
      cacheSizeSum (removeKeyFirst key l) + d.memorySize = cacheSizeSum l := by
  intro l
  induction l with
  | nil =>
    intro d hd
    simp [lookupEntry] at hd
  | cons e es ih =>
    intro d hd
    simp only [lookupEntry] at hd
    simp only [removeKeyFirst]
    by_cases h : e.1 = key
    · rw [if_pos h] at hd ⊢
      simp only [Option.some.injEq] at hd
      subst hd
      simp only [cacheSizeSum, List.map_cons, List.sum_cons]
      omega
    · rw [if_neg h] at hd ⊢
      have := ih d hd
      simp only [cacheSizeSum, List.map_cons, List.sum_cons] at this ⊢
      omega

lemma evictOld_invariant (s : TextCacheState) (h : sizeInvariant s) :
    sizeInvariant (evictOldCacheEntries s) :=
  (evictOldGo_spec s.textCache.length s le_rfl).2.2.2 h

lemma renderCachedEvictLoop_invariant (m : Nat) :
    ∀ (fuel : Nat) (s t : TextCacheState),
      renderCachedEvictLoop m fuel s = some t →
      sizeInvariant s → sizeInvariant t := by
  intro fuel
  induction fuel with
  | zero =>
    intro s t ht
    simp [renderCachedEvictLoop] at ht
  | succ f ih =>
    intro s t ht hs
    simp only [renderCachedEvictLoop] at ht
    by_cases h : s.maxCacheSize < s.currentCacheSize + m ∧ s.textCache ≠ []
    · rw [if_pos h] at ht
      exact ih (evictOldCacheEntries s) t ht (evictOld_invariant s hs)
    · rw [if_neg h] at ht
      simp only [Option.some.injEq] at ht
      subst ht
      exact hs

/-- C10: every cache operation keeps the tracked counter
`m_currentCacheSize` equal to the sum of `memorySize` over the stored
entries: clearing, clearing by font, removing one entry, evicting old
entries, and the `RenderCached` miss-path insertion performed after its
eviction loop. -/
theorem c10_tracked_size_matches_entries (s : TextCacheState)
    (h : sizeInvariant s) :
    sizeInvariant (clearCache s) ∧
    (∀ fontName, sizeInvariant (clearCacheForFont fontName s)) ∧
    (∀ key, sizeInvariant (removeCacheEntry key s)) ∧
    sizeInvariant (evictOldCacheEntries s) ∧
    (∀ key m frame fuel t, renderCachedEvictLoop m fuel s = some t →
      sizeInvariant (renderCachedInsert key m frame t)) := by
  refine ⟨rfl, ?_, ?_, evictOld_invariant s h, ?_⟩
  · intro fontName
    unfold clearCacheForFont sizeInvariant
    have := clearCacheForFontAux_invariant fontName s.textCache 0
    rw [Nat.add_zero] at this
    unfold sizeInvariant at h
    rw [h]
    simp only
    omega
  · intro key
    unfold removeCacheEntry
    cases hk : lookupEntry key s.textCache with
    | none => exact h
    | some d =>
      have := removeKeyFirst_sum key s.textCache d hk
      unfold sizeInvariant at h ⊢
      simp only
      omega
  · intro key m frame fuel t ht
    have hinv := renderCachedEvictLoop_invariant m fuel s t ht h
    unfold sizeInvariant at hinv
    unfold sizeInvariant renderCachedInsert
    simp only [cacheSizeSum, List.map_append, List.sum_append,
      List.map_cons, List.sum_cons, List.map_nil, List.sum_nil] at hinv ⊢
    omega

/-- Witness for C10 on a concrete cache with two entries (sizes 2 and 3,
counter 5, budget 4); the insertion is checked after a terminating run of
the eviction loop. -/
theorem c10_tracked_size_matches_entries_witness :
    sizeInvariant (clearCache ⟨[("ab", ⟨2, 0⟩), ("cd", ⟨3, 1⟩)], 5, 4⟩) ∧
    sizeInvariant (clearCacheForFont "a" ⟨[("ab", ⟨2, 0⟩), ("cd", ⟨3, 1⟩)], 5, 4⟩) ∧
    sizeInvariant (removeCacheEntry "cd" ⟨[("ab", ⟨2, 0⟩), ("cd", ⟨3, 1⟩)], 5, 4⟩) ∧
    sizeInvariant (evictOldCacheEntries ⟨[("ab", ⟨2, 0⟩), ("cd", ⟨3, 1⟩)], 5, 4⟩) ∧
    sizeInvariant (renderCachedInsert "xy" 1 3 ⟨[("cd", ⟨3, 1⟩)], 3, 4⟩) := by
  have h := c10_tracked_size_matches_entries
    ⟨[("ab", ⟨2, 0⟩), ("cd", ⟨3, 1⟩)], 5, 4⟩ rfl
  exact ⟨h.1, h.2.1 "a", h.2.2.1 "cd", h.2.2.2.1,
    h.2.2.2.2 "xy" 1 3 2 ⟨[("cd", ⟨3, 1⟩)], 3, 4⟩ rfl⟩

end TextCache

namespace TextHash

/-- `glm::vec2` at the rational idealisation of `float`. -/
structure Vec2 where
  x : ℚ
  y : ℚ
deriving DecidableEq, Repr

/-- `glm::vec4` colour at the rational idealisation of `float`. -/
structure Vec4 where
  r : ℚ
  g : ℚ
  b : ℚ
  a : ℚ
deriving DecidableEq, Repr

/-- `text::TextAlignment` (Text.h lines 8-13). -/
inductive TextAlignment where
  | left
  | center
  | right
  | justify
deriving DecidableEq, Repr

/-- `text::TextRenderMode` (Text.h lines 15-18). -/
inductive TextRenderMode where
  | cached
  | immediate
deriving DecidableEq, Repr

/-- `text::Text` (Text.h lines 97-120): every member of the C++ class,
including the two that do not enter the cache key (`m_renderMode` and
`m_hasChanged`). -/
structure Text where
  content : String
  font : String
  color : Vec4
  alignment : TextAlignment
  wordWrap : Bool
  maxWidth : ℚ
  lineSpacing : ℚ
  renderMode : TextRenderMode
  outlineEnabled : Bool
  outlineThickness : ℚ
  outlineColor : Vec4
  shadowEnabled : Bool
  shadowOffset : Vec2
  shadowColor : Vec4
  hasChanged : Bool
deriving DecidableEq, Repr

/-- `static_cast<int>(alignment)` under the enum's declaration order. -/
def alignmentInt : TextAlignment → Nat
  | .left => 0
  | .center => 1
  | .right => 2
  | .justify => 3

/-- A `bool` streamed with default flags prints as `1` or `0`. -/
def boolDigit (b : Bool) : String := if b then "1" else "0"

/-- Three-digit zero-padded block for the fractional part. -/
def pad3 (n : Nat) : String :=
  if n < 10 then "00" ++ toString n
  else if n < 100 then "0" ++ toString n
  else toString n

/-- `std::fixed << std::setprecision(3)` formatting at the rational
idealisation: round to three decimals and print sign, integer part and the
padded fraction (the decimal rounding of the underlying binary float is
abstracted by `round`). -/
def fmtFixed3 (q : ℚ) : String :=
  let n : ℤ := round (q * 1000)
  (if n < 0 then "-" else "") ++
    toString (n.natAbs / 1000) ++ "." ++ pad3 (n.natAbs % 1000)

/-- The `r << "," << g << "," << b << "," << a` colour block of the hash. -/
def fmtColor (c : Vec4) : String :=
  fmtFixed3 c.r ++ "," ++ fmtFixed3 c.g ++ "," ++
    fmtFixed3 c.b ++ "," ++ fmtFixed3 c.a

/-- `TextRenderer::GenerateTextHash` (TextRenderer.cpp lines 310-331):
the `|`-separated concatenation of content, font, colour, alignment,
word-wrap flag, max width, line spacing, outline flag/thickness/colour,
shadow flag/offset/colour. -/
def generateTextHash (text : Text) : String :=
  text.content ++ "|" ++ text.font ++ "|" ++
    fmtColor text.color ++ "|" ++
    toString (alignmentInt text.alignment) ++ "|" ++
    boolDigit text.wordWrap ++ "|" ++ fmtFixed3 text.maxWidth ++ "|" ++
    fmtFixed3 text.lineSpacing ++ "|" ++
    boolDigit text.outlineEnabled ++ "|" ++
    fmtFixed3 text.outlineThickness ++ "|" ++
    fmtColor text.outlineColor ++ "|" ++
    boolDigit text.shadowEnabled ++ "|" ++
    fmtFixed3 text.shadowOffset.x ++ "," ++ fmtFixed3 text.shadowOffset.y ++
    "|" ++ fmtColor text.shadowColor

/-- C4: the cache key of `TextRenderer::GenerateTextHash` is a deterministic
function of exactly the listed rendering properties, so two `Text` values
agreeing on all of them (whatever their render mode or dirty flag) produce
the same key and hence resolve to the same cache entry. -/
theorem c4_hash_determined_by_rendering_properties (t1 t2 : Text)
    (hc : t1.content = t2.content) (hf : t1.font = t2.font)
    (hcol : t1.color = t2.color) (ha : t1.alignment = t2.alignment)
    (hw : t1.wordWrap = t2.wordWrap) (hmw : t1.maxWidth = t2.maxWidth)
    (hls : t1.lineSpacing = t2.lineSpacing)
    (hoe : t1.outlineEnabled = t2.outlineEnabled)
    (hot : t1.outlineThickness = t2.outlineThickness)
    (hoc : t1.outlineColor = t2.outlineColor)
    (hse : t1.shadowEnabled = t2.shadowEnabled)
    (hso : t1.shadowOffset = t2.shadowOffset)
    (hsc : t1.shadowColor = t2.shadowColor) :
    generateTextHash t1 = generateTextHash t2 ∧
    ∀ cache : List (String × TextCache.CachedTextData),
      TextCache.lookupEntry (generateTextHash t1) cache =
        TextCache.lookupEntry (generateTextHash t2) cache := by
  have hh : generateTextHash t1 = generateTextHash t2 := by
    unfold generateTextHash
    rw [hc, hf, hcol, ha, hw, hmw, hls, hoe, hot, hoc, hse, hso, hsc]
  exact ⟨hh, fun cache => by rw [hh]⟩

/-- Witness for C4: two texts that differ in render mode and dirty flag but
agree on all hashed properties share the cache key. -/
theorem c4_hash_determined_by_rendering_properties_witness :
    generateTextHash
      ⟨"hi", "arial", ⟨1, 1, 1, 1⟩, .left, false, 0, 1, .cached,
        false, 1, ⟨0, 0, 0, 1⟩, false, ⟨2, 2⟩, ⟨0, 0, 0, 1 / 2⟩, true⟩ =
      generateTextHash
        ⟨"hi", "arial", ⟨1, 1, 1, 1⟩, .left, false, 0, 1, .immediate,
          false, 1, ⟨0, 0, 0, 1⟩, false, ⟨2, 2⟩, ⟨0, 0, 0, 1 / 2⟩, false⟩ ∧
    ∀ cache : List (String × TextCache.CachedTextData),
      TextCache.lookupEntry (generateTextHash
        ⟨"hi", "arial", ⟨1, 1, 1, 1⟩, .left, false, 0, 1, .cached,
          false, 1, ⟨0, 0, 0, 1⟩, false, ⟨2, 2⟩, ⟨0, 0, 0, 1 / 2⟩, true⟩) cache =
      TextCache.lookupEntry (generateTextHash
        ⟨"hi", "arial", ⟨1, 1, 1, 1⟩, .left, false, 0, 1, .immediate,
          false, 1, ⟨0, 0, 0, 1⟩, false, ⟨2, 2⟩, ⟨0, 0, 0, 1 / 2⟩, false⟩) cache :=
  c4_hash_determined_by_rendering_properties _ _
    rfl rfl rfl rfl rfl rfl rfl rfl rfl rfl rfl rfl rfl

end TextHash

namespace JsonModel

/-- Shallow model of `nlohmann::json` values.  Integer and floating-point
numbers are distinct storage types (`is_number_integer` holds only for the
former, `is_number` for both); objects are key-value lists with unique keys
(the library's `std::map`). -/
inductive Json where
  | null
  | bool (b : Bool)
  | int (n : Int)
  | num (q : ℚ)
  | str (s : String)
  | arr (elems : List Json)
  | obj (fields : List (String × Json))

/-- Object field lookup (`find` / const `operator[]` on a contained key). -/
def lookupField : List (String × Json) → String → Option Json
  | [], _ => none
  | e :: es, key => if e.1 = key then some e.2 else lookupField es key

/-- `json::contains(key)` combined with the const `operator[]` read:
`some` exactly when the value is an object holding the key. -/
def getField (j : Json) (key : String) : Option Json :=
  match j with
  | .obj kvs => lookupField kvs key
  | _ => none

/-- Map assignment `m[key] = v`: replace the held value or insert the
key. -/
def upsertField : List (String × Json) → String → Json → List (String × Json)
  | [], key, v => [(key, v)]
  | e :: es, key, v =>
    if e.1 = key then (key, v) :: es else e :: upsertField es key v

lemma lookupField_upsert (kvs : List (String × Json)) (key : String)
    (v : Json) : lookupField (upsertField kvs key v) key = some v := by
  induction kvs with
  | nil => simp [upsertField, lookupField]
  | cons e es ih =>
    simp only [upsertField]
    by_cases h : e.1 = key
    · rw [if_pos h]
      simp [lookupField]
    · rw [if_neg h]
      simp only [lookupField, if_neg h]
      exact ih

end JsonModel

namespace Config

open JsonModel

/-- `Config::SplitPath` (Config.cpp lines 238-259): split the dot-path on
`.`, dropping empty segments; `cur` is the pending segment in reverse. -/
def splitPathAux : List Char → List Char → List String
  | [], cur => if cur.isEmpty then [] else [String.mk cur.reverse]
  | c :: cs, cur =>
    if c = '.' then
      if cur.isEmpty then splitPathAux cs []
      else String.mk cur.reverse :: splitPathAux cs []
    else splitPathAux cs (c :: cur)

/-- `Config::SplitPath` on a path string. -/
def splitPath (path : String) : List String :=
  splitPathAux path.toList []

/-- The const `Config::GetValuePointer(path)` (Config.cpp lines 223-235):
follow the parts through object fields; `none` models `nullptr` (missing
key, or `contains` false on a non-object intermediate). -/
def getValue : Json → List String → Option Json
  | j, [] => some j
  | j, part :: rest =>
    match j with
    | .obj kvs =>
      match lookupField kvs part with
      | some child => getValue child rest
      | none => none
    | _ => none

/-- `Config::GetInt` (Config.cpp lines 88-94): the stored value when the
leaf exists and `is_number_integer`, else the caller's default. -/
def getInt (cfg : Json) (path : String) (defaultValue : Int) : Int :=
  match getValue cfg (splitPath path) with
  | some (.int n) => n
  | _ => defaultValue

/-- `Config::GetFloat` (Config.cpp lines 96-102): the stored value when the
leaf exists and `is_number` (integer or float storage), else the default. -/
def getFloat (cfg : Json) (path : String) (defaultValue : ℚ) : ℚ :=
  match getValue cfg (splitPath path) with
  | some (.num q) => q
  | some (.int n) => (n : ℚ)
  | _ => defaultValue

/-- `Config::GetBool` (Config.cpp lines 104-110). -/
def getBool (cfg : Json) (path : String) (defaultValue : Bool) : Bool :=
  match getValue cfg (splitPath path) with
  | some (.bool b) => b
  | _ => defaultValue

/-- `Config::GetString` (Config.cpp lines 112-118). -/
def getString (cfg : Json) (path : String) (defaultValue : String) : String :=
  match getValue cfg (splitPath path) with
  | some (.str s) => s
  | _ => defaultValue

/-- The intermediate node `GetValuePointer` descends into with
`createPath = true`: the existing child when it is an object, otherwise a
fresh empty object (`(*current)[part] = nlohmann::json::object()` both when
the key is missing and when the held value is not an object). -/
def childFor (kvs : List (String × Json)) (part : String) : Json :=
  match lookupField kvs part with
  | some (Json.obj cs) => Json.obj cs
  | some _ => Json.obj []
  | none => Json.obj []

/-- The non-const `Config::GetValuePointer(path, createPath = true)`
(Config.cpp lines 185-221) combined with the store the setters perform
through the returned pointer: navigate, creating missing intermediates and
replacing non-object intermediates with empty objects, then assign `v` at
the last part (with no parts, the pointer is the document root and the
whole document is replaced).  `none` models the `nlohmann` `type_error`
that `operator[]` throws when the current node is neither `null` nor an
object. -/
def setValue : Json → List String → Json → Option Json
  | _, [], v => some v
  | j, part :: rest, v =>
    match rest with
    | [] =>
      match j with
      | .obj kvs => some (.obj (upsertField kvs part v))
      | .null => some (.obj [(part, v)])
      | _ => none
    | _ :: _ =>
      match j with
      | .obj kvs =>
        match setValue (childFor kvs part) rest v with
        | some child2 => some (.obj (upsertField kvs part child2))
        | none => none
      | .null =>
        match setValue (Json.obj []) rest v with
        | some child2 => some (.obj [(part, child2)])
        | none => none
      | _ => none

/-- `Config::SetInt` (Config.cpp lines 120-126). -/
def setInt (cfg : Json) (path : String) (value : Int) : Option Json :=
  setValue cfg (splitPath path) (.int value)

/-- `Config::SetFloat` (Config.cpp lines 128-134). -/
def setFloat (cfg : Json) (path : String) (value : ℚ) : Option Json :=
  setValue cfg (splitPath path) (.num value)

/-- `Config::SetBool` (Config.cpp lines 136-142). -/
def setBool (cfg : Json) (path : String) (value : Bool) : Option Json :=
  setValue cfg (splitPath path) (.bool value)

/-- `Config::SetString` (Config.cpp lines 144-150). -/
def setString (cfg : Json) (path : String) (value : String) : Option Json :=
  setValue cfg (splitPath path) (.str value)

/-- Independent specification of dot-path resolution: following the parts
from the document through object fields reaches the leaf. -/
inductive Resolve : Json → List String → Json → Prop where
  | nil (j : Json) : Resolve j [] j
  | cons (kvs : List (String × Json)) (part : String) (rest : List String)
      (child leaf : Json) :
      lookupField kvs part = some child → Resolve child rest leaf →
      Resolve (.obj kvs) (part :: rest) leaf

lemma getValue_resolve (parts : List String) :
    ∀ (j leaf : Json), getValue j parts = some leaf ↔ Resolve j parts leaf := by
  induction parts with
  | nil =>
    intro j leaf
    constructor
    · intro h
      simp only [getValue, Option.some.injEq] at h
      subst h
      exact Resolve.nil j
    · intro h
      cases h
      rfl
  | cons part rest ih =>
    intro j leaf
    constructor
    · intro h
      cases j with
      | obj kvs =>
        simp only [getValue] at h
        cases hl : lookupField kvs part with
        | none => rw [hl] at h; exact Option.noConfusion h
        | some child =>
          rw [hl] at h
          exact Resolve.cons kvs part rest child leaf hl ((ih child leaf).mp h)
      | null => exact Option.noConfusion h
      | bool b => exact Option.noConfusion h
      | int n => exact Option.noConfusion h
      | num q => exact Option.noConfusion h
      | str s => exact Option.noConfusion h
      | arr elems => exact Option.noConfusion h
    · intro h
      cases h with
      | cons kvs part rest child leaf hl hr =>
        simp only [getValue, hl]
        exact (ih child leaf).mpr hr

/-- C6: each `Config` getter returns the stored leaf when the dot-path
resolves to a leaf of the matching storage type (for `GetFloat`, any JSON
number — the `is_number()` coercion check), and the caller-supplied default
otherwise: missing path, missing intermediate key, or a leaf of another
type. -/
theorem c6_getters_match_type_or_default (cfg : Json) (p : String) :
    (∀ leaf, getValue cfg (splitPath p) = some leaf ↔
      Resolve cfg (splitPath p) leaf) ∧
    (∀ n d, Resolve cfg (splitPath p) (.int n) → getInt cfg p d = n) ∧
    (∀ d, (¬ ∃ n, Resolve cfg (splitPath p) (.int n)) → getInt cfg p d = d) ∧
    (∀ q d, Resolve cfg (splitPath p) (.num q) → getFloat cfg p d = q) ∧
    (∀ n d, Resolve cfg (splitPath p) (.int n) → getFloat cfg p d = (n : ℚ)) ∧
    (∀ d, (¬ ∃ q, Resolve cfg (splitPath p) (.num q)) →
      (¬ ∃ n, Resolve cfg (splitPath p) (.int n)) → getFloat cfg p d = d) ∧
    (∀ b d, Resolve cfg (splitPath p) (.bool b) → getBool cfg p d = b) ∧
    (∀ d, (¬ ∃ b, Resolve cfg (splitPath p) (.bool b)) → getBool cfg p d = d) ∧
    (∀ s d, Resolve cfg (splitPath p) (.str s) → getString cfg p d = s) ∧
    (∀ d, (¬ ∃ s, Resolve cfg (splitPath p) (.str s)) →
      getString cfg p d = d) := by
  refine ⟨fun leaf => getValue_resolve (splitPath p) cfg leaf,
    ?_, ?_, ?_, ?_, ?_, ?_, ?_, ?_, ?_⟩
  · intro n d h
    unfold getInt
    rw [(getValue_resolve (splitPath p) cfg _).mpr h]
  · intro d h
    unfold getInt
    cases hgv : getValue cfg (splitPath p) with
    | none => rfl
    | some leaf =>
      cases leaf with
      | int n =>
        exact absurd ⟨n, (getValue_resolve (splitPath p) cfg _).mp hgv⟩ h
      | null => rfl
      | bool b => rfl
      | num q => rfl
      | str s => rfl
      | arr elems => rfl
      | obj fields => rfl
  · intro q d h
    unfold getFloat
    rw [(getValue_resolve (splitPath p) cfg _).mpr h]
  · intro n d h
    unfold getFloat
    rw [(getValue_resolve (splitPath p) cfg _).mpr h]
  · intro d hq hn
    unfold getFloat
    cases hgv : getValue cfg (splitPath p) with
    | none => rfl
    | some leaf =>
      cases leaf with
      | int n =>
        exact absurd ⟨n, (getValue_resolve (splitPath p) cfg _).mp hgv⟩ hn
      | num q =>
        exact absurd ⟨q, (getValue_resolve (splitPath p) cfg _).mp hgv⟩ hq
      | null => rfl
      | bool b => rfl
      | str s => rfl
      | arr elems => rfl
      | obj fields => rfl
  · intro b d h
    unfold getBool
    rw [(getValue_resolve (splitPath p) cfg _).mpr h]
  · intro d h
    unfold getBool
    cases hgv : getValue cfg (splitPath p) with
    | none => rfl
    | some leaf =>
      cases leaf with
      | bool b =>
        exact absurd ⟨b, (getValue_resolve (splitPath p) cfg _).mp hgv⟩ h
      | null => rfl
      | int n => rfl
      | num q => rfl
      | str s => rfl
      | arr elems => rfl
      | obj fields => rfl
  · intro s d h
    unfold getString
    rw [(getValue_resolve (splitPath p) cfg _).mpr h]
  · intro d h
    unfold getString
    cases hgv : getValue cfg (splitPath p) with
    | none => rfl
    | some leaf =>
      cases leaf with
      | str s =>
        exact absurd ⟨s, (getValue_resolve (splitPath p) cfg _).mp hgv⟩ h
      | null => rfl
      | int n => rfl
      | num q => rfl
      | bool b => rfl
      | arr elems => rfl
      | obj fields => rfl

/-- The default configuration fragment used by the C6 witness. -/
def c6cfg : Json :=
  .obj [("window", .obj [("width", .int 1280), ("title", .str "SDL2 Game")])]

/-- Witness for C6: an existing integer leaf is returned, a string leaf
read through `GetInt` falls back to the default, and a missing key falls
back to the default. -/
theorem c6_getters_match_type_or_default_witness :
    getInt c6cfg "window.width" 0 = 1280 ∧
    getInt c6cfg "window.title" 42 = 42 ∧
    getInt c6cfg "window.missing" 7 = 7 := by
  have h1 := c6_getters_match_type_or_default c6cfg "window.width"
  have h2 := c6_getters_match_type_or_default c6cfg "window.title"
  have h3 := c6_getters_match_type_or_default c6cfg "window.missing"
  refine ⟨h1.2.1 1280 0 ((h1.1 _).mp rfl), h2.2.2.1 42 ?_, h3.2.2.1 7 ?_⟩
  · rintro ⟨n, hr⟩
    have hv := (h2.1 _).mpr hr
    rw [show getValue c6cfg (splitPath "window.title") =
      some (.str "SDL2 Game") from rfl] at hv
    simp at hv
  · rintro ⟨n, hr⟩
    have hv := (h3.1 _).mpr hr
    rw [show getValue c6cfg (splitPath "window.missing") = none from rfl] at hv
    exact Option.noConfusion hv

lemma childFor_isObj (kvs : List (String × Json)) (part : String) :
    ∃ cs, childFor kvs part = Json.obj cs := by
  unfold childFor
  cases hl : lookupField kvs part with
  | none => exact ⟨[], rfl⟩
  | some c =>
    cases c with
    | obj cs => exact ⟨cs, rfl⟩
    | null => exact ⟨[], rfl⟩
    | bool b => exact ⟨[], rfl⟩
    | int n => exact ⟨[], rfl⟩
    | num q => exact ⟨[], rfl⟩
    | str s => exact ⟨[], rfl⟩
    | arr elems => exact ⟨[], rfl⟩

lemma setValue_null_cons (part r : String) (rs : List String) (v : Json) :
    setValue Json.null (part :: r :: rs) v =
      match setValue (Json.obj []) (r :: rs) v with
      | some child2 => some (Json.obj [(part, child2)])
      | none => none := rfl

lemma setValue_obj_cons (kvs : List (String × Json)) (part r : String)
    (rs : List String) (v : Json) :
    setValue (Json.obj kvs) (part :: r :: rs) v =
      match setValue (childFor kvs part) (r :: rs) v with
      | some child2 => some (Json.obj (upsertField kvs part child2))
      | none => none := rfl

lemma getValue_obj_cons (kvs : List (String × Json)) (part : String)
    (rest : List String) :
    getValue (Json.obj kvs) (part :: rest) =
      match lookupField kvs part with
      | some child => getValue child rest
      | none => none := rfl

lemma setValue_roundtrip (v : Json) (parts : List String) :
    ∀ j : Json, ((j = .null ∨ ∃ kvs, j = .obj kvs) ∨ parts = []) →
      ∃ j2, setValue j parts v = some j2 ∧ getValue j2 parts = some v := by
  induction parts with
  | nil =>
    intro j _
    exact ⟨v, rfl, rfl⟩
  | cons part rest ih =>
    intro j hj
    rcases hj with hj | habs
    · cases rest with
      | nil =>
        rcases hj with hnull | ⟨kvs, hobj⟩
        · subst hnull
          exact ⟨.obj [(part, v)], rfl, by simp [getValue, lookupField]⟩
        · subst hobj
          refine ⟨.obj (upsertField kvs part v), rfl, ?_⟩
          simp [getValue, lookupField_upsert]
      | cons r rs =>
        rcases hj with hnull | ⟨kvs, hobj⟩
        · subst hnull
          obtain ⟨child2, hset, hget⟩ :=
            ih (Json.obj []) (Or.inl (Or.inr ⟨[], rfl⟩))
          refine ⟨.obj [(part, child2)], ?_, ?_⟩
          · rw [setValue_null_cons, hset]
          · rw [getValue_obj_cons,
              show lookupField [(part, child2)] part = some child2 from by
                simp [lookupField]]
            exact hget
        · subst hobj
          obtain ⟨cs, hcs⟩ := childFor_isObj kvs part
          obtain ⟨child2, hset, hget⟩ :=
            ih (childFor kvs part) (Or.inl (Or.inr ⟨cs, hcs⟩))
          refine ⟨.obj (upsertField kvs part child2), ?_, ?_⟩
          · rw [setValue_obj_cons, hset]
          · rw [getValue_obj_cons, lookupField_upsert]
            exact hget
    · exact absurd habs (by simp)

/-- C7 does not hold as stated for every configuration state: with a
non-object root document (reachable through `SetInt("", v)`, which replaces
the whole document), a subsequent `SetInt` on a non-empty path throws
`nlohmann` `type_error.305` in `operator[]` (modelled `none`) and stores
nothing, so no post-state satisfies the claimed round trip. -/
theorem c7_set_then_get_counterexample :
    ¬ ∃ cfg2, setInt (.int 7) "a" 5 = some cfg2 ∧ getInt cfg2 "a" 0 = 5 := by
  rintro ⟨cfg2, hset, _⟩
  rw [show setInt (.int 7) "a" 5 = none from rfl] at hset
  exact Option.noConfusion hset

/-- C7 (amended): the set-then-get round trip holds for every dot-path,
value and default whenever the configuration root is an object or `null`
(every state `Config` produces unless the whole document was replaced
through an empty path), or the path has no segments; the setter creates
missing intermediate objects and replaces non-object intermediates with
objects along the way. -/
theorem c7_set_then_get_roundtrip (cfg : Json) (p : String)
    (h : (cfg = .null ∨ ∃ kvs, cfg = .obj kvs) ∨ splitPath p = []) :
    (∀ (v : Int) (d : Int), ∃ cfg2,
      setInt cfg p v = some cfg2 ∧ getInt cfg2 p d = v) ∧
    (∀ (q : ℚ) (d : ℚ), ∃ cfg2,
      setFloat cfg p q = some cfg2 ∧ getFloat cfg2 p d = q) ∧
    (∀ (b : Bool) (d : Bool), ∃ cfg2,
      setBool cfg p b = some cfg2 ∧ getBool cfg2 p d = b) ∧
    (∀ (s : String) (d : String), ∃ cfg2,
      setString cfg p s = some cfg2 ∧ getString cfg2 p d = s) := by
  refine ⟨?_, ?_, ?_, ?_⟩
  · intro v d
    obtain ⟨j2, hset, hget⟩ := setValue_roundtrip (.int v) (splitPath p) cfg h
    refine ⟨j2, hset, ?_⟩
    unfold getInt
    rw [hget]
  · intro q d
    obtain ⟨j2, hset, hget⟩ := setValue_roundtrip (.num q) (splitPath p) cfg h
    refine ⟨j2, hset, ?_⟩
    unfold getFloat
    rw [hget]
  · intro b d
    obtain ⟨j2, hset, hget⟩ := setValue_roundtrip (.bool b) (splitPath p) cfg h
    refine ⟨j2, hset, ?_⟩
    unfold getBool
    rw [hget]
  · intro s d
    obtain ⟨j2, hset, hget⟩ := setValue_roundtrip (.str s) (splitPath p) cfg h
    refine ⟨j2, hset, ?_⟩
    unfold getString
    rw [hget]

/-- Witness for the amended C7: on a fresh (`null`) document, setting
`window.width` to 800 and reading it back returns 800, for any default. -/
theorem c7_set_then_get_roundtrip_witness :
    ∃ cfg2, setInt .null "window.width" 800 = some cfg2 ∧
      getInt cfg2 "window.width" 0 = 800 :=
  (c7_set_then_get_roundtrip .null "window.width" (Or.inl (Or.inl rfl))).1 800 0

end Config

namespace SaveSys

open JsonModel

/-- The versioned envelope `SaveManager::Save` and `SaveManager::Quicksave`
build (SaveManager.h lines 144-149 and 185-190):
`{version: "1.0.0", timestamp, type, data}`. -/
def saveEnvelope (timestamp typeName : String) (data : Json) : Json :=
  .obj [("version", .str "1.0.0"), ("timestamp", .str timestamp),
    ("type", .str typeName), ("data", data)]

/-- The envelope checks `SaveManager::Load` and `SaveManager::LoadQuicksave`
run on a parsed document (SaveManager.h lines 239-252 and 296-309): require
the `version` and `data` fields, a string version equal to `"1.0.0"`, then
convert the `data` field (`deser` models the `T result = (*jsonData)["data"]`
conversion; `none` models the exception it may throw, caught into
`nullopt`). -/
def parseEnvelope {α : Type} (deser : Json → Option α) (doc : Json) :
    Option α :=
  if (getField doc "version").isSome ∧ (getField doc "data").isSome then
    match getField doc "version" with
    | some (.str v) =>
      if v = "1.0.0" then
        match getField doc "data" with
        | some d => deser d
        | none => none
      else none
    | _ => none
  else none

/-- `SaveManager::Load` from the `LoadJson` read on: `file` is `LoadJson`'s
result, `none` when the save file is missing or unparseable. -/
def loadSave {α : Type} (deser : Json → Option α) (file : Option Json) :
    Option α :=
  match file with
  | none => none
  | some doc => parseEnvelope deser doc

lemma parseEnvelope_save {α : Type} (deser : Json → Option α)
    (ts ty : String) (d : Json) :
    parseEnvelope deser (saveEnvelope ts ty d) = deser d := by
  simp [parseEnvelope, saveEnvelope, getField, lookupField]

/-- C5: `Save<T>` writes an envelope holding exactly the fields `version`
(set to `"1.0.0"`), `timestamp`, `type` and `data` (the serialized value);
`Load<T>` yields `nullopt` when the file is missing or unparseable, when
the envelope lacks a `version` or `data` field, or when the version differs
from `"1.0.0"`, and otherwise yields the value deserialized from the
`data` field. -/
theorem c5_versioned_envelope_save_load (α : Type) (deser : Json → Option α)
    (ts ty : String) (d : Json) (v : α) (hd : deser d = some v) :
    (∃ kvs, saveEnvelope ts ty d = .obj kvs ∧
      kvs.map Prod.fst = ["version", "timestamp", "type", "data"]) ∧
    getField (saveEnvelope ts ty d) "version" = some (.str "1.0.0") ∧
    getField (saveEnvelope ts ty d) "timestamp" = some (.str ts) ∧
    getField (saveEnvelope ts ty d) "type" = some (.str ty) ∧
    getField (saveEnvelope ts ty d) "data" = some d ∧
    loadSave deser none = none ∧
    loadSave deser (some (saveEnvelope ts ty d)) = some v ∧
    (∀ doc : Json, getField doc "version" = none ∨ getField doc "data" = none →
      loadSave deser (some doc) = none) ∧
    (∀ (doc : Json) (ver : String), getField doc "version" = some (.str ver) →
      ver ≠ "1.0.0" → loadSave deser (some doc) = none) := by
  refine ⟨⟨_, rfl, rfl⟩, rfl, ?_, ?_, ?_, rfl, ?_, ?_, ?_⟩
  · simp [saveEnvelope, getField, lookupField]
  · simp [saveEnvelope, getField, lookupField]
  · simp [saveEnvelope, getField, lookupField]
  · show parseEnvelope deser (saveEnvelope ts ty d) = some v
    rw [parseEnvelope_save, hd]
  · intro doc hmiss
    show parseEnvelope deser doc = none
    unfold parseEnvelope
    rcases hmiss with hm | hm <;> rw [hm] <;> simp
  · intro doc ver hver hne
    show parseEnvelope deser doc = none
    unfold parseEnvelope
    rw [hver]
    simp [hne]

/-- Deserializer for integer payloads, used by the witnesses. -/
def intDeser : Json → Option Int
  | .int n => some n
  | _ => none

/-- Witness for C5 on a concrete envelope and integer payload. -/
theorem c5_versioned_envelope_save_load_witness :
    loadSave intDeser (some (saveEnvelope "2025-08-11_14-30-45" "PlayerData"
      (.int 3))) = some 3 ∧
    loadSave intDeser none = (none : Option Int) :=
  ⟨(c5_versioned_envelope_save_load Int intDeser "2025-08-11_14-30-45"
      "PlayerData" (.int 3) 3 rfl).2.2.2.2.2.2.1,
    (c5_versioned_envelope_save_load Int intDeser "2025-08-11_14-30-45"
      "PlayerData" (.int 3) 3 rfl).2.2.2.2.2.1⟩

/-- `entry.path().extension() == ".json"` on the flat file names the save
manager generates: the name ends with `".json"`. -/
def hasJsonExt (filename : String) : Bool :=
  TextCache.charsLeadWith ".json".toList.reverse filename.toList.reverse

/-- The `.json` regular files of a per-type quicksave directory, in
iteration order; the directory is a list of (file name, parsed content)
pairs. -/
def jsonFiles (dir : List (String × Json)) : List (String × Json) :=
  dir.filter fun f => hasJsonExt f.1

/-- `SaveManager::QuicksaveExists<T>` (SaveManager.h lines 320-335): some
`.json` file exists in the type's quicksave directory. -/
def quicksaveExists (dir : List (String × Json)) : Bool :=
  !(jsonFiles dir).isEmpty

/-- `SaveManager::DeleteQuicksave` (SaveManager.cpp lines 249-277): removes
every regular file of the type's quicksave directory. -/
def deleteQuicksave (_dir : List (String × Json)) : List (String × Json) :=
  []

/-- `SaveManager::SaveJson` (SaveManager.cpp lines 395-419): creates or
overwrites the named file. -/
def saveJsonFile (dir : List (String × Json)) (filename : String)
    (doc : Json) : List (String × Json) :=
  match dir with
  | [] => [(filename, doc)]
  | f :: fs =>
    if f.1 = filename then (filename, doc) :: fs
    else f :: saveJsonFile fs filename doc

/-- `SaveManager::Quicksave<T>` (SaveManager.h lines 173-216) from the
envelope on: delete the type's existing quicksave files when one exists,
then write the new file. -/
def quicksave (dir : List (String × Json)) (filename : String)
    (envelope : Json) : List (String × Json) :=
  saveJsonFile (if quicksaveExists dir then deleteQuicksave dir else dir)
    filename envelope

/-- `SaveManager::LoadQuicksave<T>` (SaveManager.h lines 261-318): fail when
no quicksave exists; otherwise collect the `.json` files of the type's
directory, read the first (`saves[0]`) and run the envelope checks. -/
def loadQuicksave {α : Type} (deser : Json → Option α)
    (dir : List (String × Json)) : Option α :=
  if quicksaveExists dir then
    match jsonFiles dir with
    | [] => none
    | f :: _ => parseEnvelope deser f.2
  else none

lemma saveJsonFile_append (filename : String) (doc : Json) :
    ∀ dir : List (String × Json), (∀ f ∈ dir, f.1 ≠ filename) →
      saveJsonFile dir filename doc = dir ++ [(filename, doc)] := by
  intro dir
  induction dir with
  | nil => intro _; rfl
  | cons f fs ih =>
    intro h
    simp only [saveJsonFile]
    rw [if_neg (h f (by simp)), ih (fun g hg => h g (by simp [hg]))]
    rfl

/-- C8: a successful `Quicksave<T>` leaves exactly one save file in the
type's quicksave directory (existing quicksaves of that type are deleted
before the new file is written), and `LoadQuicksave<T>` reads back that
single file's payload. -/
theorem c8_single_quicksave_per_type (dir : List (String × Json))
    (fn ts ty : String) (d : Json) (α : Type) (deser : Json → Option α)
    (v : α) (hext : hasJsonExt fn = true) (hd : deser d = some v) :
    jsonFiles (quicksave dir fn (saveEnvelope ts ty d)) =
      [(fn, saveEnvelope ts ty d)] ∧
    loadQuicksave deser (quicksave dir fn (saveEnvelope ts ty d)) = some v := by
  have hfiles : jsonFiles (quicksave dir fn (saveEnvelope ts ty d)) =
      [(fn, saveEnvelope ts ty d)] := by
    unfold quicksave
    by_cases hq : quicksaveExists dir
    · rw [if_pos hq]
      unfold deleteQuicksave saveJsonFile jsonFiles
      simp [hext]
    · rw [if_neg hq]
      have hempty : jsonFiles dir = [] := by
        unfold quicksaveExists at hq
        rcases List.isEmpty_iff.mp (by simpa using hq) with h
        exact h
      have hnone : ∀ f ∈ dir, f.1 ≠ fn := by
        intro f hf hfn
        have : f ∈ jsonFiles dir := by
          unfold jsonFiles
          refine List.mem_filter.mpr ⟨hf, ?_⟩
          rw [hfn]
          exact hext
        rw [hempty] at this
        exact absurd this (List.not_mem_nil f)
      rw [saveJsonFile_append fn (saveEnvelope ts ty d) dir hnone]
      unfold jsonFiles
      rw [List.filter_append]
      unfold jsonFiles at hempty
      rw [hempty]
      simp [hext]
  refine ⟨hfiles, ?_⟩
  unfold loadQuicksave
  rw [if_pos (by unfold quicksaveExists; rw [hfiles]; rfl), hfiles]
  show parseEnvelope deser (saveEnvelope ts ty d) = some v
  rw [parseEnvelope_save, hd]

/-- Witness for C8: quicksaving over a directory already holding an old
quicksave leaves only the new file, and loading returns the new payload. -/
theorem c8_single_quicksave_per_type_witness :
    jsonFiles (quicksave [("Game_PlayerData_quicksave_t0.json", .int 0)]
      "Game_PlayerData_quicksave_t1.json"
      (saveEnvelope "t1" "PlayerData" (.int 3))) =
      [("Game_PlayerData_quicksave_t1.json",
        saveEnvelope "t1" "PlayerData" (.int 3))] ∧
    loadQuicksave intDeser
      (quicksave [("Game_PlayerData_quicksave_t0.json", .int 0)]
        "Game_PlayerData_quicksave_t1.json"
        (saveEnvelope "t1" "PlayerData" (.int 3))) = some 3 :=
  c8_single_quicksave_per_type [("Game_PlayerData_quicksave_t0.json", .int 0)]
    "Game_PlayerData_quicksave_t1.json" "t1" "PlayerData" (.int 3)
    Int intDeser 3 (by decide) rfl

end SaveSys
